import Mathlib

/-
Verification of the geometric projection and layout engine of GpxTrackPoster.

Shallow embedding conventions:
* Python floats are modelled as exact rationals (ℚ).
* Python float division raises ZeroDivisionError on a zero divisor; a
  fallible computation is modelled with Option, `none` meaning the Python
  call raises.
* `pint.Quantity` distance values are modelled by their magnitude in a
  fixed unit, again as ℚ.
-/

namespace GpxTrackPoster

/-- Embeds `xy.XY` (xy.py): a 2-component value type. -/
structure XY where
  x : ℚ
  y : ℚ
  deriving DecidableEq, Repr

/-- Embeds `XY.__mul__` / `__rmul__` with an XY factor (elementwise). -/
def XY.mulXY (a b : XY) : XY := ⟨a.x * b.x, a.y * b.y⟩

/-- Embeds `XY.__mul__` / `__rmul__` with a scalar factor. -/
def XY.mulS (a : XY) (f : ℚ) : XY := ⟨a.x * f, a.y * f⟩

/-- Embeds `XY.__add__` with an XY summand. -/
def XY.addXY (a b : XY) : XY := ⟨a.x + b.x, a.y + b.y⟩

/-- Embeds `XY.__sub__` with an XY subtrahend. -/
def XY.subXY (a b : XY) : XY := ⟨a.x - b.x, a.y - b.y⟩

/-- Embeds `XY.tuple`. -/
def XY.tuple (a : XY) : ℚ × ℚ := (a.x, a.y)

/-- Embeds `XY.get_max`. -/
def XY.get_max (a : XY) : ℚ := max a.x a.y

/-- Embeds `XY.scale_to_max_value` (xy.py lines 112-128).  The branch taken
divides by the corresponding component of `self`; when that component is
zero the Python float division raises ZeroDivisionError (`none`). -/
def XY.scale_to_max_value (p : XY) (max_value : ℚ) : Option XY :=
  if p.y < p.x then
    if p.x = 0 then none else some ⟨max_value, max_value / p.x * p.y⟩
  else
    if p.y = 0 then none else some ⟨max_value / p.y * p.x, max_value⟩

/-- Embeds `value_range.ValueRange`: two optional bounds, both `None` after
`__init__`/`clear`, and always set together by `extend`. -/
structure ValueRange where
  _lower : Option ℚ
  _upper : Option ℚ
  deriving DecidableEq, Repr

/-- Embeds `ValueRange.__init__` / `ValueRange.clear`. -/
def ValueRange.empty : ValueRange := ⟨none, none⟩

/-- Embeds `ValueRange.is_valid`. -/
def ValueRange.is_valid (r : ValueRange) : Bool := r._lower.isSome

/-- Embeds `ValueRange.extend`.  When `_lower` is set but `_upper` is not,
the Python `assert self._upper is not None` fails; that state is never
produced by the class itself and is mapped to the cleared range. -/
def ValueRange.extend (r : ValueRange) (value : ℚ) : ValueRange :=
  match r._lower with
  | none => ⟨some value, some value⟩
  | some lo =>
    match r._upper with
    | some up => ⟨some (min lo value), some (max up value)⟩
    | none => ⟨none, none⟩

/-- Embeds `ValueRange.from_pair`. -/
def ValueRange.from_pair (value1 value2 : ℚ) : ValueRange :=
  (ValueRange.empty.extend value1).extend value2

/-- Embeds `ValueRange.diameter`. -/
def ValueRange.diameter (r : ValueRange) : ℚ :=
  match r._lower, r._upper with
  | some lo, some up => up - lo
  | _, _ => 0

/-- Embeds `ValueRange.contains`. -/
def ValueRange.contains_value (r : ValueRange) (value : ℚ) : Bool :=
  match r._lower, r._upper with
  | some lo, some up => decide (lo ≤ value) && decide (value ≤ up)
  | _, _ => false

/-- Embeds `ValueRange.interpolate`; `none` is the raised ValueError on an
invalid range (or the failed assert on `_upper`). -/
def ValueRange.interpolate (r : ValueRange) (relative : ℚ) : Option ℚ :=
  match r._lower, r._upper with
  | some lo, some up => some (lo + relative * (up - lo))
  | _, _ => none

/-- Embeds `ValueRange.relative_position` (value_range.py lines 140-163);
`none` is the raised ValueError on an invalid range. -/
def ValueRange.relative_position (r : ValueRange) (value : ℚ) : Option ℚ :=
  match r._lower, r._upper with
  | some lo, some up =>
    if value ≤ lo then some 0
    else if up ≤ value then some 1
    else if up - lo = 0 then some 0
    else some ((value - lo) / (up - lo))
  | _, _ => none

/-- Embeds `quantity_range.QuantityRange`: identical logic to `ValueRange`
over `pint.Quantity` values, modelled by their magnitudes. -/
structure QuantityRange where
  _lower : Option ℚ
  _upper : Option ℚ
  deriving DecidableEq, Repr

/-- Embeds `QuantityRange.__init__` / `QuantityRange.clear`. -/
def QuantityRange.empty : QuantityRange := ⟨none, none⟩

/-- Embeds `QuantityRange.extend` (same shape as `ValueRange.extend`). -/
def QuantityRange.extend (r : QuantityRange) (value : ℚ) : QuantityRange :=
  match r._lower with
  | none => ⟨some value, some value⟩
  | some lo =>
    match r._upper with
    | some up => ⟨some (min lo value), some (max up value)⟩
    | none => ⟨none, none⟩

/-- Embeds `QuantityRange.from_pair`. -/
def QuantityRange.from_pair (value1 value2 : ℚ) : QuantityRange :=
  (QuantityRange.empty.extend value1).extend value2

/-- Embeds `QuantityRange.interpolate`. -/
def QuantityRange.interpolate (r : QuantityRange) (relative : ℚ) : Option ℚ :=
  match r._lower, r._upper with
  | some lo, some up => some (lo + relative * (up - lo))
  | _, _ => none

/-- Embeds `QuantityRange.relative_position` (quantity_range.py lines
142-165); the final branch divides two quantities and takes `.magnitude`. -/
def QuantityRange.relative_position (r : QuantityRange) (value : ℚ) : Option ℚ :=
  match r._lower, r._upper with
  | some lo, some up =>
    if value ≤ lo then some 0
    else if up ≤ value then some 1
    else if up - lo = 0 then some 0
    else some ((value - lo) / (up - lo))
  | _, _ => none

/-- Embeds the constant `day_seconds = 60 * 60 * 12` of
`ClockDrawer._draw_circle_segment` (clock_drawer.py line 225). -/
def day_seconds : ℕ := 60 * 60 * 12

/-- Embeds a Python `datetime.time` time-of-day (hour, minute, second). -/
structure Time where
  hour : ℕ
  minute : ℕ
  second : ℕ
  deriving DecidableEq, Repr

/-- A `datetime.time` always satisfies these bounds. -/
def Time.valid (t : Time) : Prop := t.hour < 24 ∧ t.minute < 60 ∧ t.second < 60

/-- Embeds `seconds = (start.hour * 60 + start.minute) * 60 + start.second`
(clock_drawer.py lines 227 and 232). -/
def Time.total_seconds (t : Time) : ℕ := (t.hour * 60 + t.minute) * 60 + t.second

/-- Embeds the conditional subtraction
`if seconds > day_seconds: seconds -= day_seconds` of
`_draw_circle_segment`. -/
def reduce_half_day (s : ℕ) : ℕ := if day_seconds < s then s - day_seconds else s

/-- Embeds the start-time reduction (lines 228-229): the conditional
subtraction applied once. -/
def reduce_start (s : ℕ) : ℕ := reduce_half_day s

/-- Embeds the end-time reduction (lines 233-236): the same conditional
subtraction written twice in a row. -/
def reduce_end (s : ℕ) : ℕ := reduce_half_day (reduce_half_day s)

/-- Embeds the degree value `360.0 / day_seconds * seconds` from which the
arc start angle `a1` is obtained (line 230; the code then converts the
degrees to radians). -/
def start_angle_deg (t : Time) : ℚ :=
  360 / (day_seconds : ℚ) * (reduce_start t.total_seconds : ℚ)

/-- Embeds the degree value for the arc end angle `a2` (line 237). -/
def end_angle_deg (t : Time) : ℚ :=
  360 / (day_seconds : ℚ) * (reduce_end t.total_seconds : ℚ)

/-- Modelled from the spec: the claimed clock-angle contract
`angle = (seconds since midnight mod 43200) * (360/43200)` of the
(absent) helper `get_clock_angle_from_time`. -/
def spec_clock_angle_deg (t : Time) : ℚ :=
  ((t.total_seconds % day_seconds : ℕ) : ℚ) * (360 / (day_seconds : ℚ))

/-- Embeds `utils.lng2x`. -/
def lng2x (lng_deg : ℚ) : ℚ := lng_deg / 180 + 1

/-- Denotes the two `while` loops of `utils.project` (utils.py lines 82-85)
that bring `d_x` into [0, 2) by repeatedly subtracting or adding 2; for
every starting value the loops compute the remainder of `d_x` modulo 2. -/
def norm_d_x (d : ℚ) : ℚ := d - 2 * ((d / 2).floor : ℚ)

/-- Python float division; `none` models the raised ZeroDivisionError. -/
def pydiv (a b : ℚ) : Option ℚ := if b = 0 then none else some (a / b)

/-- Embeds the scale selection of `utils.project` (line 90):
`scale = size.x / d_x if size.x / size.y <= d_x / d_y else size.y / d_y`,
with every Python division checked in evaluation order. -/
def project_scale (size : XY) (d_x d_y : ℚ) : Option ℚ :=
  match pydiv size.x size.y, pydiv d_x d_y with
  | some r1, some r2 => if r1 ≤ r2 then pydiv size.x d_x else pydiv size.y d_y
  | _, _ => none

/-- Modelled from the spec: the claimed closed form of the scale factor,
`scale = min(size.x/d_x, size.y/d_y)`. -/
def spec_scale_min (size : XY) (d_x d_y : ℚ) : ℚ :=
  min (size.x / d_x) (size.y / d_y)

/-- Embeds the body of the inner `for latlng in latlngline` loop of
`utils.project` (lines 95-100): an in-bbox point is appended to the
current segment, a point outside flushes a nonempty current segment.
`inBB` stands for the external `bbox.contains` test and `f` for the
per-point map `(offset + scale * latlng2xy(latlng)).tuple()`. -/
def project_point_step {α β : Type} (inBB : α → Bool) (f : α → β)
    (acc : List (List β) × List β) (latlng : α) : List (List β) × List β :=
  if inBB latlng then (acc.1, acc.2 ++ [f latlng])
  else if 0 < acc.2.length then (acc.1 ++ [acc.2], [])
  else acc

/-- Embeds one iteration of the outer `for latlngline in latlnglines` loop
(lines 93-102): run the inner loop starting from a fresh empty segment,
then flush a nonempty trailing segment. -/
def project_line_step {α β : Type} (inBB : α → Bool) (f : α → β)
    (lines : List (List β)) (latlngline : List α) : List (List β) :=
  let state := latlngline.foldl (project_point_step inBB f) (lines, [])
  if 0 < state.2.length then state.1 ++ [state.2] else state.1

/-- Embeds the segment-building loop of `utils.project` (lines 92-103). -/
def project_segments {α β : Type} (inBB : α → Bool) (f : α → β)
    (latlnglines : List (List α)) : List (List β) :=
  latlnglines.foldl (project_line_step inBB f) []

/-- Embeds `utils.project` (lines 80-103) end to end.  The transcendental
Mercator latitude map `lat2y` is injected through its two output values
`y_lo = lat2y(bbox.lat_lo)`, `y_hi = lat2y(bbox.lat_hi)` and through the
per-point map `latlng2xy`: `lat2y` is a strictly monotone bijection from
(-90°, 90°) onto the reals, so `y_lo = y_hi` exactly when
`lat_lo = lat_hi`, and every pair of values is realised by some bounding
box.  The result is `none` when a Python division raises. -/
def project {α : Type} (inBB : α → Bool) (latlng2xy : α → XY)
    (lng_lo lng_hi y_lo y_hi : ℚ) (size offset : XY)
    (latlnglines : List (List α)) : Option (List (List (ℚ × ℚ))) :=
  let min_x := lng2x lng_lo
  let d_x := norm_d_x (lng2x lng_hi - min_x)
  let min_y := y_lo
  let d_y := |y_hi - min_y|
  match project_scale size d_x d_y with
  | none => none
  | some scale =>
    let offset2 :=
      (offset.addXY ((size.subXY ((XY.mk d_x (-d_y)).mulS scale)).mulS (1 / 2))).subXY
        ((XY.mk min_x min_y).mulS scale)
    some (project_segments inBB
      (fun latlng => (offset2.addXY ((latlng2xy latlng).mulS scale)).tuple)
      latlnglines)

/-- The candidate `(count_x, count_y)` pairs of `utils.compute_grid` in
iteration order: `count_x` from `range(1, count + 1)` outer, `count_y`
inner. -/
def grid_pairs (count : ℤ) : List (ℕ × ℕ) :=
  (List.range count.toNat).flatMap
    (fun i => (List.range count.toNat).map (fun j => (i + 1, j + 1)))

/-- Embeds `size = min(size_x, size_y)` for a candidate pair of
`utils.compute_grid`. -/
def grid_cell_size (dimensions : XY) (count_x count_y : ℕ) : ℚ :=
  min (dimensions.x / count_x) (dimensions.y / count_y)

/-- Embeds `waste = dimensions.x * dimensions.y - count * size * size`. -/
def grid_waste (count : ℤ) (dimensions : XY) (count_x count_y : ℕ) : ℚ :=
  dimensions.x * dimensions.y -
    count * grid_cell_size dimensions count_x count_y *
      grid_cell_size dimensions count_x count_y

/-- Loop state of `compute_grid`: `none` while no candidate has been
accepted, otherwise `(best_size, best_counts, min_waste)`. -/
abbrev GridState := Option (ℚ × (ℕ × ℕ) × ℚ)

/-- Embeds one iteration of the double loop of `utils.compute_grid`
(lines 140-152). -/
def grid_step (count : ℤ) (dimensions : XY) (st : GridState) (p : ℕ × ℕ) :
    GridState :=
  if count ≤ (p.1 * p.2 : ℕ) then
    let size := grid_cell_size dimensions p.1 p.2
    let waste := dimensions.x * dimensions.y - count * size * size
    if waste < 0 then st
    else
      match st with
      | none => some (size, p, waste)
      | some (best_size, best_counts, min_waste) =>
        if waste < min_waste then some (size, p, waste)
        else some (best_size, best_counts, min_waste)
  else st

/-- Embeds `utils.compute_grid` (utils.py lines 125-153). -/
def compute_grid (count : ℤ) (dimensions : XY) :
    Option ℚ × Option (ℕ × ℕ) :=
  match (grid_pairs count).foldl (grid_step count dimensions) none with
  | none => (none, none)
  | some (best_size, best_counts, _) => (some best_size, some best_counts)

/-- Embeds `track.Track` as far as the draw guards need it. -/
structure Track where
  special : Bool

/-- Modelled from the spec: `exceptions.PosterError` is not under src/; the
spec distinguishes the user-visible "nothing to draw" condition from the
grid failure (EmptyInputError vs UngriddableInputError), raised with the
messages used in clock_drawer.py and heatmap_drawer.py. -/
inductive PosterError where
  | noTracksToDraw
  | unableToComputeGrid
  deriving DecidableEq, Repr

/-- Embeds the guard sequence of `ClockDrawer.draw` (clock_drawer.py lines
70-81).  `tracks` models `poster.tracks`, typed `list[Track]`, initialised
to `[]` and only ever reassigned to a list by `set_tracks` - hence never
actually `None`; `length_range_by_date` models the poster field of that
name (a `QuantityRange`, likewise never `None`); `years_count` stands for
`poster.years.count()` (the `YearRange` class is not under src/).  The
value is the `PosterError` raised, `none` when the method proceeds to draw
(or returns silently on a missing length range). -/
def ClockDrawer.draw_error (tracks : Option (List Track))
    (length_range_by_date : Option QuantityRange) (years_count : ℤ)
    (size : XY) : Option PosterError :=
  match tracks with
  | none => some PosterError.noTracksToDraw
  | some _ =>
    match length_range_by_date with
    | none => none
    | some _ =>
      match (compute_grid years_count size).2 with
      | none => some PosterError.unableToComputeGrid
      | some _ => none

/-- Embeds the no-tracks guard of `HeatmapDrawer.draw` (heatmap_drawer.py
lines 245-247). -/
def HeatmapDrawer.draw_error (tracks : List Track) : Option PosterError :=
  if tracks.length = 0 then some PosterError.noTracksToDraw else none

/-- C1 counterexample: at exactly 12:00:00 the circle-segment code assigns
360.0 degrees (the conditional `if seconds > day_seconds` does not fire at
equality), while the claimed mod-43200 formula, and the spec's stated
value for 12:00:00, give 0.0. -/
theorem c1_clock_angle_noon_counterexample :
    start_angle_deg ⟨12, 0, 0⟩ = 360 ∧ end_angle_deg ⟨12, 0, 0⟩ = 360 ∧
      spec_clock_angle_deg ⟨12, 0, 0⟩ = 0 ∧
      start_angle_deg ⟨12, 0, 0⟩ ≠ spec_clock_angle_deg ⟨12, 0, 0⟩ := by
  refine ⟨?_, ?_, ?_, ?_⟩ <;>
    norm_num [start_angle_deg, end_angle_deg, spec_clock_angle_deg,
      reduce_start, reduce_end, reduce_half_day, Time.total_seconds, day_seconds]

/-- C1 (amended): for every valid time-of-day the start- and end-angle
reductions agree, and the degree value assigned when drawing a circle
segment equals the claimed `(seconds since midnight mod 43200) * (360/43200)`
for every time except exactly 12:00:00, where the code assigns 360.0
degrees - the same clock-face position as the claimed 0.0; in particular
00:00:00 maps to 0.0 and both 03:00:00 and 15:00:00 map to 90.0. -/
theorem c1_clock_angle_amended (t : Time) (h : t.valid) :
    start_angle_deg t = end_angle_deg t ∧
    (t.total_seconds ≠ day_seconds → start_angle_deg t = spec_clock_angle_deg t) ∧
    (t.total_seconds = day_seconds → start_angle_deg t = 360) ∧
    start_angle_deg ⟨0, 0, 0⟩ = 0 ∧ start_angle_deg ⟨3, 0, 0⟩ = 90 ∧
    start_angle_deg ⟨15, 0, 0⟩ = 90 := by
  obtain ⟨hh, hm, hs⟩ := h
  have hlt : t.total_seconds < 2 * day_seconds := by
    unfold Time.total_seconds day_seconds
    omega
  refine ⟨?_, ?_, ?_, ?_, ?_, ?_⟩
  · have : reduce_start t.total_seconds = reduce_end t.total_seconds := by
      unfold reduce_start reduce_end reduce_half_day day_seconds at *
      split_ifs <;> omega
    unfold start_angle_deg end_angle_deg
    rw [this]
  · intro hne
    have : reduce_start t.total_seconds = t.total_seconds % day_seconds := by
      unfold reduce_start reduce_half_day day_seconds at *
      split_ifs <;> omega
    unfold start_angle_deg spec_clock_angle_deg
    rw [this, mul_comm]
  · intro heq
    have : reduce_start t.total_seconds = day_seconds := by
      unfold reduce_start reduce_half_day
      rw [heq]
      simp
    unfold start_angle_deg
    rw [this]
    norm_num [day_seconds]
  · norm_num [start_angle_deg, reduce_start, reduce_half_day, Time.total_seconds,
      day_seconds]
  · norm_num [start_angle_deg, reduce_start, reduce_half_day, Time.total_seconds,
      day_seconds]
  · norm_num [start_angle_deg, reduce_start, reduce_half_day, Time.total_seconds,
      day_seconds]

/-- C1 witness: the amended theorem applied at 15:00:00. -/
theorem c1_clock_angle_amended_witness :
    start_angle_deg ⟨15, 0, 0⟩ = spec_clock_angle_deg ⟨15, 0, 0⟩ :=
  (c1_clock_angle_amended ⟨15, 0, 0⟩ ⟨by norm_num, by norm_num, by norm_num⟩).2.1
    (by norm_num [Time.total_seconds, day_seconds])

/-- C3: for positive bounding-box extents and canvas sizes, the scale the
code computes by the ratio comparison on utils.py line 90 equals the
spec's `min(size.x/d_x, size.y/d_y)` and no division raises. -/
theorem c3_scale_refines_min (size : XY) (d_x d_y : ℚ)
    (_hsx : 0 < size.x) (hsy : 0 < size.y) (hdx : 0 < d_x) (hdy : 0 < d_y) :
    project_scale size d_x d_y = some (spec_scale_min size d_x d_y) := by
  unfold project_scale pydiv spec_scale_min
  simp only [if_neg hsy.ne', if_neg hdy.ne', if_neg hdx.ne']
  split_ifs with hle
  · have h1 : size.x * d_y ≤ d_x * size.y := (div_le_div_iff₀ hsy hdy).mp hle
    have h2 : size.x / d_x ≤ size.y / d_y := by
      rw [div_le_div_iff₀ hdx hdy]
      linarith [h1]
    rw [min_eq_left h2]
  · have h1 : d_x * size.y < size.x * d_y :=
      (div_lt_div_iff₀ hdy hsy).mp (not_le.mp hle)
    have h2 : size.y / d_y ≤ size.x / d_x := by
      rw [div_le_div_iff₀ hdy hdx]
      linarith [h1]
    rw [min_eq_right h2]

/-- C3 witness: the refinement at a concrete canvas and box. -/
theorem c3_scale_refines_min_witness :
    project_scale ⟨4, 3⟩ 2 1 = some (spec_scale_min ⟨4, 3⟩ 2 1) :=
  c3_scale_refines_min ⟨4, 3⟩ 2 1 (by norm_num) (by norm_num) (by norm_num)
    (by norm_num)

/-- C6: for every valid range (both the float and the quantity
instantiation) `relative_position` returns 0 at or below the lower bound,
1 at or above the upper bound (the at-lower case taking precedence, as in
the code's case order), otherwise `(v - lower)/(upper - lower)`, which
lies in [0, 1] and whose divisor is provably nonzero; a zero-diameter
range is fully handled by the clamps and never reaches the division. -/
theorem c6_relative_position_contract (lo up v : ℚ) :
    ((v ≤ lo → (ValueRange.mk (some lo) (some up)).relative_position v = some 0) ∧
     (lo < v → up ≤ v →
        (ValueRange.mk (some lo) (some up)).relative_position v = some 1) ∧
     (lo < v → v < up →
        (ValueRange.mk (some lo) (some up)).relative_position v =
            some ((v - lo) / (up - lo)) ∧
          up - lo ≠ 0 ∧ 0 ≤ (v - lo) / (up - lo) ∧ (v - lo) / (up - lo) ≤ 1) ∧
     (up = lo →
        (ValueRange.mk (some lo) (some up)).relative_position v = some 0 ∨
        (ValueRange.mk (some lo) (some up)).relative_position v = some 1)) ∧
    ((v ≤ lo →
        (QuantityRange.mk (some lo) (some up)).relative_position v = some 0) ∧
     (lo < v → up ≤ v →
        (QuantityRange.mk (some lo) (some up)).relative_position v = some 1) ∧
     (lo < v → v < up →
        (QuantityRange.mk (some lo) (some up)).relative_position v =
            some ((v - lo) / (up - lo)) ∧
          up - lo ≠ 0 ∧ 0 ≤ (v - lo) / (up - lo) ∧ (v - lo) / (up - lo) ≤ 1) ∧
     (up = lo →
        (QuantityRange.mk (some lo) (some up)).relative_position v = some 0 ∨
        (QuantityRange.mk (some lo) (some up)).relative_position v = some 1)) := by
  have hmain : ∀ rp : ℚ → Option ℚ,
      (∀ w, rp w =
        if w ≤ lo then some 0
        else if up ≤ w then some 1
        else if up - lo = 0 then some 0
        else some ((w - lo) / (up - lo))) →
      ((v ≤ lo → rp v = some 0) ∧
       (lo < v → up ≤ v → rp v = some 1) ∧
       (lo < v → v < up →
          rp v = some ((v - lo) / (up - lo)) ∧
            up - lo ≠ 0 ∧ 0 ≤ (v - lo) / (up - lo) ∧ (v - lo) / (up - lo) ≤ 1) ∧
       (up = lo → rp v = some 0 ∨ rp v = some 1)) := by
    intro rp hrp
    refine ⟨?_, ?_, ?_, ?_⟩
    · intro hv
      rw [hrp, if_pos hv]
    · intro hv1 hv2
      rw [hrp, if_neg (not_le.mpr hv1), if_pos hv2]
    · intro hv1 hv2
      have hd : 0 < up - lo := by linarith
      refine ⟨?_, hd.ne', ?_, ?_⟩
      · rw [hrp, if_neg (not_le.mpr hv1), if_neg (not_le.mpr hv2), if_neg hd.ne']
      · exact div_nonneg (by linarith) hd.le
      · rw [div_le_one hd]
        linarith
    · intro hEq
      by_cases hv : v ≤ lo
      · exact Or.inl (by rw [hrp, if_pos hv])
      · refine Or.inr ?_
        rw [hrp, if_neg hv, if_pos (by rw [hEq]; exact (not_le.mp hv).le)]
  constructor
  · exact hmain (fun w => (ValueRange.mk (some lo) (some up)).relative_position w)
      (fun w => rfl)
  · exact hmain (fun w => (QuantityRange.mk (some lo) (some up)).relative_position w)
      (fun w => rfl)

/-- C6 witness: the contract applied to the range [0, 2] at value 1. -/
theorem c6_relative_position_contract_witness :
    (ValueRange.mk (some (0 : ℚ)) (some 2)).relative_position 1 =
      some ((1 - 0) / (2 - 0)) :=
  ((c6_relative_position_contract 0 2 1).1.2.2.1 (by norm_num) (by norm_num)).1

/-- C7 counterexample: the range [1, 1] is valid, interpolation at ratio
1/2 yields 1, and relative_position recovers 0, which is not approximately
1/2 (the recovery error is exactly 1/2). -/
theorem c7_roundtrip_counterexample :
    (ValueRange.from_pair 1 1).is_valid = true ∧
    (ValueRange.from_pair 1 1).interpolate (1 / 2) = some 1 ∧
    (ValueRange.from_pair 1 1).relative_position 1 = some 0 ∧
    |(0 : ℚ) - 1 / 2| = 1 / 2 ∧ ((0 : ℚ) = 1 / 2 → False) := by
  refine ⟨rfl, ?_, ?_, by norm_num, by norm_num⟩ <;>
    norm_num [ValueRange.from_pair, ValueRange.empty, ValueRange.extend,
      ValueRange.interpolate, ValueRange.relative_position]

/-- C7 (amended): for every valid range of nonzero diameter (both
instantiations) and every ratio r in [0, 1], relative_position recovers r
from interpolate exactly. -/
theorem c7_roundtrip_amended (lo up r : ℚ) (hlt : lo < up) (h0 : 0 ≤ r)
    (h1 : r ≤ 1) :
    (ValueRange.from_pair lo up).interpolate r = some (lo + r * (up - lo)) ∧
    (ValueRange.from_pair lo up).relative_position (lo + r * (up - lo)) = some r ∧
    (QuantityRange.from_pair lo up).interpolate r = some (lo + r * (up - lo)) ∧
    (QuantityRange.from_pair lo up).relative_position (lo + r * (up - lo)) =
      some r := by
  have hd : 0 < up - lo := by linarith
  have hVfp : ValueRange.from_pair lo up = ValueRange.mk (some lo) (some up) := by
    simp [ValueRange.from_pair, ValueRange.empty, ValueRange.extend,
      min_eq_left hlt.le, max_eq_right hlt.le]
  have hQfp : QuantityRange.from_pair lo up =
      QuantityRange.mk (some lo) (some up) := by
    simp [QuantityRange.from_pair, QuantityRange.empty, QuantityRange.extend,
      min_eq_left hlt.le, max_eq_right hlt.le]
  have hrp : ∀ rp : ℚ → Option ℚ,
      (∀ w, rp w =
        if w ≤ lo then some 0
        else if up ≤ w then some 1
        else if up - lo = 0 then some 0
        else some ((w - lo) / (up - lo))) →
      rp (lo + r * (up - lo)) = some r := by
    intro rp h
    rw [h]
    rcases eq_or_lt_of_le h0 with h0' | h0'
    · rw [if_pos (by nlinarith)]
      rw [← h0']
    · rcases eq_or_lt_of_le h1 with h1' | h1'
      · rw [if_neg (by nlinarith), if_pos (by nlinarith)]
        rw [h1']
      · rw [if_neg (by nlinarith), if_neg (by nlinarith), if_neg hd.ne']
        congr 1
        field_simp
  refine ⟨?_, ?_, ?_, ?_⟩
  · rw [hVfp]
    rfl
  · rw [hVfp]
    exact hrp (fun w => (ValueRange.mk (some lo) (some up)).relative_position w)
      (fun w => rfl)
  · rw [hQfp]
    rfl
  · rw [hQfp]
    exact hrp (fun w => (QuantityRange.mk (some lo) (some up)).relative_position w)
      (fun w => rfl)

/-- C7 witness: the amended round trip on the range [0, 2] at ratio 1/2. -/
theorem c7_roundtrip_amended_witness :
    (ValueRange.from_pair (0 : ℚ) 2).relative_position (0 + 1 / 2 * (2 - 0)) =
      some (1 / 2) :=
  (c7_roundtrip_amended 0 2 (1 / 2) (by norm_num) (by norm_num)
    (by norm_num)).2.1

/-- C9 counterexample: for p = (-2, -4) and max_value 1 the code returns
(1, 2); the larger result component is 2, which is neither 1 nor -1, so
`max(result.x, result.y) == max_value` fails even up to sign. -/
theorem c9_scale_to_max_value_counterexample :
    (XY.mk (-2) (-4)).scale_to_max_value 1 = some ⟨1, 2⟩ ∧
    max (1 : ℚ) 2 = 2 ∧ ((2 : ℚ) = 1 → False) ∧ ((2 : ℚ) = -1 → False) := by
  refine ⟨?_, by norm_num, by norm_num, by norm_num⟩
  norm_num [XY.scale_to_max_value]

/-- C9 (amended): whenever the larger component of p is nonzero (otherwise
the Python division raises), scale_to_max_value scales both components by
the single factor `max_value / max(p.x, p.y)`; the larger result component
equals max_value when `max(p.x, p.y) > 0` and `max_value ≥ 0` (not merely
up to sign in general), and the ratio x/y is preserved whenever
`max_value ≠ 0` and `p.y ≠ 0`. -/
theorem c9_scale_to_max_value_amended (p : XY) (m : ℚ)
    (hmax : max p.x p.y ≠ 0) :
    p.scale_to_max_value m =
      some ⟨p.x * (m / max p.x p.y), p.y * (m / max p.x p.y)⟩ ∧
    (0 < max p.x p.y → 0 ≤ m →
      max (p.x * (m / max p.x p.y)) (p.y * (m / max p.x p.y)) = m) ∧
    (p.y ≠ 0 → m ≠ 0 →
      (p.x * (m / max p.x p.y)) / (p.y * (m / max p.x p.y)) = p.x / p.y) := by
  refine ⟨?_, ?_, ?_⟩
  · unfold XY.scale_to_max_value
    split_ifs with hyx hx0 hy0
    · rw [max_eq_left (le_of_lt hyx)] at hmax
      exact absurd hx0 hmax
    · rw [max_eq_left (le_of_lt hyx)]
      have hx : p.x ≠ 0 := by
        rw [max_eq_left (le_of_lt hyx)] at hmax
        exact hmax
      congr 1
      rw [XY.mk.injEq]
      refine ⟨?_, ?_⟩
      · field_simp
      · ring
    · rw [max_eq_right (not_lt.mp hyx)] at hmax
      exact absurd hy0 hmax
    · rw [max_eq_right (not_lt.mp hyx)]
      have hy : p.y ≠ 0 := by
        rw [max_eq_right (not_lt.mp hyx)] at hmax
        exact hmax
      congr 1
      rw [XY.mk.injEq]
      refine ⟨?_, ?_⟩
      · ring
      · field_simp
  · intro hpos hm
    have hf : 0 ≤ m / max p.x p.y := div_nonneg hm hpos.le
    rw [← max_mul_of_nonneg _ _ hf]
    field_simp
  · intro hy hm
    have hf : m / max p.x p.y ≠ 0 := div_ne_zero hm hmax
    rw [mul_comm p.x _, mul_comm p.y _, mul_div_mul_left _ _ hf]

/-- C9 witness: the amended contract at p = (3, 4), max_value 2. -/
theorem c9_scale_to_max_value_amended_witness :
    (XY.mk 3 4).scale_to_max_value 2 =
      some ⟨3 * (2 / max (3 : ℚ) 4), 4 * (2 / max (3 : ℚ) 4)⟩ :=
  (c9_scale_to_max_value_amended ⟨3, 4⟩ 2 (by norm_num)).1

/-- Auxiliary: two successive head modifications compose. -/
theorem modifyHead_modifyHead {α : Type} (g h : α → α) (l : List α) :
    (l.modifyHead g).modifyHead h = l.modifyHead (fun a => h (g a)) := by
  cases l <;> simp [List.modifyHead]

/-- Auxiliary: prepending the empty list to the head is the identity. -/
theorem modifyHead_nil_append {α : Type} (l : List (List α)) :
    l.modifyHead (fun s => [] ++ s) = l := by
  cases l <;> simp [List.modifyHead]

/-- Auxiliary: mapping commutes with consing onto the head sublist. -/
theorem map_modifyHead_cons {α β : Type} (f : α → β) (a : α)
    (X : List (List α)) :
    (X.modifyHead (List.cons a)).map (List.map f) =
      (X.map (List.map f)).modifyHead (List.cons (f a)) := by
  cases X <;> simp [List.modifyHead]

/-- Auxiliary: dropping empty sublists commutes with mapping over the
sublists. -/
theorem filter_isEmpty_map_map {α β : Type} (f : α → β) (X : List (List α)) :
    (X.map (List.map f)).filter (fun s => !s.isEmpty) =
      (X.filter (fun s => !s.isEmpty)).map (List.map f) := by
  induction X with
  | nil => rfl
  | cons hd tl ih => cases hd <;> simp [List.filter_cons, ih]

/-- Auxiliary: the inner loop of `project`, started with pending segment
`cur` and already-emitted segments `lines`, followed by the trailing
flush, emits `lines` and then exactly the nonempty maximal runs of
in-bbox points of `pts` (mapped by `f`), the first run extended to the
left by `cur`. -/
theorem project_line_loop {α β : Type} (inBB : α → Bool) (f : α → β)
    (pts : List α) :
    ∀ (lines : List (List β)) (cur : List β),
      (if 0 < (pts.foldl (project_point_step inBB f) (lines, cur)).2.length
       then
         (pts.foldl (project_point_step inBB f) (lines, cur)).1 ++
           [(pts.foldl (project_point_step inBB f) (lines, cur)).2]
       else (pts.foldl (project_point_step inBB f) (lines, cur)).1) =
      lines ++
        (((pts.splitOnP fun a => !inBB a).map (List.map f)).modifyHead
            (fun s => cur ++ s)).filter (fun s => !s.isEmpty) := by
  induction pts with
  | nil =>
    intro lines cur
    cases cur <;>
      simp [List.splitOnP_nil, List.modifyHead, List.filter]
  | cons p pts ih =>
    intro lines cur
    rw [List.foldl_cons]
    cases hb : inBB p with
    | true =>
      have hstep : project_point_step inBB f (lines, cur) p =
          (lines, cur ++ [f p]) := by
        simp [project_point_step, hb]
      rw [hstep, ih, List.splitOnP_cons]
      simp only [hb, Bool.not_true, Bool.false_eq_true, if_false]
      rw [map_modifyHead_cons, modifyHead_modifyHead]
      have hfun : (fun s : List β => cur ++ List.cons (f p) s) =
          (fun s : List β => (cur ++ [f p]) ++ s) := by
        funext s
        simp
      rw [hfun]
    | false =>
      by_cases hc : 0 < cur.length
      · have hstep : project_point_step inBB f (lines, cur) p =
            (lines ++ [cur], []) := by
          simp [project_point_step, hb, hc]
        rw [hstep, ih, List.splitOnP_cons]
        simp only [hb, Bool.not_false, if_true]
        rw [modifyHead_nil_append]
        have hcur : cur ≠ [] := by
          intro h
          rw [h] at hc
          simp at hc
        simp only [List.map_cons, List.modifyHead, List.map_nil, List.append_nil]
        rw [List.filter_cons]
        have : (!cur.isEmpty) = true := by
          cases cur
          · exact absurd rfl hcur
          · rfl
        rw [if_pos this]
        simp
      · have hcur : cur = [] := by
          cases cur
          · rfl
          · simp at hc
        subst hcur
        have hstep : project_point_step inBB f (lines, []) p = (lines, []) := by
          simp [project_point_step, hb]
        rw [hstep, ih, List.splitOnP_cons]
        simp only [hb, Bool.not_false, if_true]
        rw [modifyHead_nil_append, modifyHead_nil_append]
        simp [List.filter_cons]

/-- Auxiliary: one outer-loop iteration appends the nonempty maximal runs
of the processed polyline. -/
theorem project_line_step_eq {α β : Type} (inBB : α → Bool) (f : α → β)
    (lines : List (List β)) (l : List α) :
    project_line_step inBB f lines l =
      lines ++
        ((l.splitOnP fun a => !inBB a).filter (fun s => !s.isEmpty)).map
          (List.map f) := by
  have h := project_line_loop inBB f l lines []
  rw [modifyHead_nil_append, filter_isEmpty_map_map] at h
  exact h

/-- C4: the segments returned by `project` are exactly the nonempty
maximal runs of consecutive in-bbox points of each input polyline, in
order, mapped pointwise to the canvas; `splitOnP` on the out-of-bbox
points yields those maximal runs, and dropping the empty pieces leaves
exactly the runs the code emits, so every returned segment is nonempty. -/
theorem c4_project_segments_maximal_runs {α β : Type} (inBB : α → Bool)
    (f : α → β) (latlnglines : List (List α)) :
    project_segments inBB f latlnglines =
      latlnglines.flatMap (fun l =>
        ((l.splitOnP fun a => !inBB a).filter (fun s => !s.isEmpty)).map
          (List.map f)) ∧
    ∀ seg ∈ project_segments inBB f latlnglines, seg ≠ [] := by
  have hmain : ∀ L : List (List β),
      latlnglines.foldl (project_line_step inBB f) L =
        L ++ latlnglines.flatMap (fun l =>
          ((l.splitOnP fun a => !inBB a).filter (fun s => !s.isEmpty)).map
            (List.map f)) := by
    induction latlnglines with
    | nil =>
      intro L
      simp
    | cons l ls ih =>
      intro L
      rw [List.foldl_cons, ih, project_line_step_eq, List.flatMap_cons,
        List.append_assoc]
  have heq : project_segments inBB f latlnglines =
      latlnglines.flatMap (fun l =>
        ((l.splitOnP fun a => !inBB a).filter (fun s => !s.isEmpty)).map
          (List.map f)) := by
    have h := hmain []
    rw [List.nil_append] at h
    exact h
  refine ⟨heq, ?_⟩
  intro seg hseg
  rw [heq] at hseg
  rw [List.mem_flatMap] at hseg
  obtain ⟨l, _, hseg⟩ := hseg
  rw [List.mem_map] at hseg
  obtain ⟨s, hs, rfl⟩ := hseg
  rw [List.mem_filter] at hs
  intro hnil
  rw [List.map_eq_nil_iff] at hnil
  rw [hnil] at hs
  simp at hs

/-- C4 witness: a concrete polyline with an out-of-bbox break; the segment
[10] is among the results and is nonempty. -/
theorem c4_project_segments_maximal_runs_witness :
    [10] ∈ project_segments (fun n : ℕ => decide (n < 3)) (fun n => n * 10)
        [[1, 5, 2, 7, 7, 1], [9], [0, 1]] ∧
    ([10] : List ℕ) ≠ [] :=
  ⟨by decide,
    (c4_project_segments_maximal_runs (fun n : ℕ => decide (n < 3))
        (fun n => n * 10) [[1, 5, 2, 7, 7, 1], [9], [0, 1]]).2 [10]
      (by decide)⟩

/-- Auxiliary: `Rat.floor` agrees with the floor of the archimedean order
structure. -/
theorem rat_floor_eq_int_floor (q : ℚ) : q.floor = ⌊q⌋ := by
  apply le_antisymm
  · rw [Int.le_floor]
    exact Rat.le_floor.mp le_rfl
  · rw [Rat.le_floor]
    exact Int.floor_le q

/-- Auxiliary: the loop-normalised longitude extent is nonnegative (the
second while loop has stopped). -/
theorem norm_d_x_nonneg (d : ℚ) : 0 ≤ norm_d_x d := by
  unfold norm_d_x
  rw [rat_floor_eq_int_floor]
  have h := Int.floor_le (d / 2)
  have h2 : 2 * ((⌊d / 2⌋ : ℚ)) ≤ 2 * (d / 2) := by linarith
  linarith

/-- Auxiliary: the loop-normalised longitude extent is below 2 (the first
while loop has stopped). -/
theorem norm_d_x_lt_two (d : ℚ) : norm_d_x d < 2 := by
  unfold norm_d_x
  rw [rat_floor_eq_int_floor]
  have h := Int.lt_floor_add_one (d / 2)
  have h2 : 2 * (d / 2) < 2 * ((⌊d / 2⌋ : ℚ) + 1) := by linarith
  linarith

/-- Auxiliary: on [0, 2) both while loops leave the value unchanged. -/
theorem norm_d_x_eq_self (d : ℚ) (h0 : 0 ≤ d) (h2 : d < 2) :
    norm_d_x d = d := by
  unfold norm_d_x
  rw [rat_floor_eq_int_floor]
  have hf : ⌊d / 2⌋ = 0 := by
    rw [Int.floor_eq_zero_iff]
    constructor
    · linarith
    · linarith
  rw [hf]
  push_cast
  ring

/-- Auxiliary: one iteration of the subtracting while loop preserves the
normalised value. -/
theorem norm_d_x_sub_two (d : ℚ) : norm_d_x (d - 2) = norm_d_x d := by
  unfold norm_d_x
  rw [rat_floor_eq_int_floor, rat_floor_eq_int_floor]
  rw [show (d - 2) / 2 = d / 2 - (1 : ℤ) by push_cast; ring, Int.floor_sub_int]
  push_cast
  ring

/-- Auxiliary: one iteration of the adding while loop preserves the
normalised value. -/
theorem norm_d_x_add_two (d : ℚ) : norm_d_x (d + 2) = norm_d_x d := by
  unfold norm_d_x
  rw [rat_floor_eq_int_floor, rat_floor_eq_int_floor]
  rw [show (d + 2) / 2 = d / 2 + (1 : ℤ) by push_cast; ring, Int.floor_add_int]
  push_cast
  ring

/-- Auxiliary: with a positive canvas and nonnegative `d_x`, the scale
expression of utils.py line 90 raises ZeroDivisionError exactly when
`d_y = 0`; when `d_x = 0` but `d_y > 0` the ratio comparison is false and
the `size.y / d_y` branch is taken. -/
theorem project_scale_none_iff (size : XY) (d_x d_y : ℚ)
    (hsx : 0 < size.x) (hsy : 0 < size.y) (_hdx : 0 ≤ d_x) (hdy : 0 ≤ d_y) :
    project_scale size d_x d_y = none ↔ d_y = 0 := by
  unfold project_scale pydiv
  rw [if_neg hsy.ne']
  by_cases h : d_y = 0
  · subst h
    simp
  · rw [if_neg h]
    simp only
    have hdy' : 0 < d_y := lt_of_le_of_ne hdy (Ne.symm h)
    split_ifs with hle hx0
    · exfalso
      rw [hx0] at hle
      rw [zero_div] at hle
      have hpos : 0 < size.x / size.y := div_pos hsx hsy
      linarith
    · simp [h]
    · simp [h]

/-- C10 counterexample: a bounding box degenerate in longitude only
(lng_lo = lng_hi = 30, so the normalised longitude extent `d_x` is 0,
with distinct Mercator latitude images 1/2 and 1/4, i.e. distinct
latitudes) does not fail: `project` returns a result. -/
theorem c10_project_degenerate_counterexample :
    norm_d_x (lng2x 30 - lng2x 30) = 0 ∧
    project (fun _ : Unit => true) (fun _ => ⟨lng2x 30, 1 / 2⟩) 30 30 (1 / 2)
        (1 / 4) ⟨100, 100⟩ ⟨0, 0⟩ [] = some [] := by
  have hdx : norm_d_x (lng2x 30 - lng2x 30) = 0 := by
    rw [sub_self]
    exact norm_d_x_eq_self 0 le_rfl (by norm_num)
  refine ⟨hdx, ?_⟩
  have habs : |(1 / 4 : ℚ) - 1 / 2| = 1 / 4 := by
    rw [abs_sub_comm, show (1 / 2 : ℚ) - 1 / 4 = 1 / 4 by norm_num]
    exact abs_of_pos (by norm_num)
  have hscale : project_scale ⟨100, 100⟩ 0 (1 / 4) = some 400 := by
    norm_num [project_scale, pydiv]
  simp only [project, hdx, habs, hscale]
  rfl

/-- C10 (amended): with a positive canvas, `project` fails with a
division-by-zero error exactly when the latitude extent `d_y` is zero,
i.e. when `lat2y(lat_lo) = lat2y(lat_hi)` (equivalently, by strict
monotonicity of `lat2y`, when lat_lo = lat_hi); a degenerate normalised
longitude extent alone does not make it fail, because the ratio
comparison then routes evaluation to the `size.y / d_y` branch. -/
theorem c10_project_division_amended {α : Type} (inBB : α → Bool)
    (latlng2xy : α → XY) (lng_lo lng_hi y_lo y_hi : ℚ) (size offset : XY)
    (lls : List (List α)) (hsx : 0 < size.x) (hsy : 0 < size.y) :
    project inBB latlng2xy lng_lo lng_hi y_lo y_hi size offset lls = none ↔
      y_lo = y_hi := by
  have hiff := project_scale_none_iff size
    (norm_d_x (lng2x lng_hi - lng2x lng_lo)) (|y_hi - y_lo|) hsx hsy
    (norm_d_x_nonneg _) (abs_nonneg _)
  unfold project
  rcases h : project_scale size (norm_d_x (lng2x lng_hi - lng2x lng_lo))
      (|y_hi - y_lo|) with _ | sc
  · simp only [h]
    have hy : y_hi = y_lo := by
      have h0 := hiff.mp h
      rw [abs_eq_zero, sub_eq_zero] at h0
      exact h0
    simp [hy]
  · simp only [h]
    constructor
    · intro hcontra
      exact absurd hcontra (by simp)
    · intro hy
      exfalso
      have : project_scale size (norm_d_x (lng2x lng_hi - lng2x lng_lo))
          (|y_hi - y_lo|) = none := by
        apply hiff.mpr
        rw [hy]
        simp
      rw [h] at this
      exact Option.noConfusion this

/-- C10 witness: the amended characterisation applied to a concrete
latitude-degenerate box, which does fail. -/
theorem c10_project_division_amended_witness :
    project (fun _ : Unit => true) (fun _ => ⟨lng2x 30, 1 / 2⟩) 30 30 (1 / 2)
        (1 / 2) ⟨100, 100⟩ ⟨0, 0⟩ [] = none :=
  (c10_project_division_amended (fun _ : Unit => true)
      (fun _ => ⟨lng2x 30, 1 / 2⟩) 30 30 (1 / 2) (1 / 2) ⟨100, 100⟩ ⟨0, 0⟩ []
      (by norm_num) (by norm_num)).mpr rfl

/-- A candidate pair is valid when it offers at least `count` cells
(the `if count_x * count_y >= count` test). -/
def valid_pair (count : ℤ) (p : ℕ × ℕ) : Prop := count ≤ ((p.1 * p.2 : ℕ) : ℤ)

/-- Invariant of the `compute_grid` loop: after processing the candidates
`seen`, the state is empty exactly when every seen valid candidate had
negative waste, and otherwise records a seen valid candidate of minimal
nonnegative waste together with its cell size and waste. -/
def grid_inv (count : ℤ) (d : XY) (seen : List (ℕ × ℕ)) : GridState → Prop
  | none => ∀ q ∈ seen, valid_pair count q → grid_waste count d q.1 q.2 < 0
  | some (bs, bp, mw) =>
      bp ∈ seen ∧ valid_pair count bp ∧
      bs = grid_cell_size d bp.1 bp.2 ∧
      mw = grid_waste count d bp.1 bp.2 ∧ 0 ≤ mw ∧
      ∀ q ∈ seen, valid_pair count q → 0 ≤ grid_waste count d q.1 q.2 →
        mw ≤ grid_waste count d q.1 q.2

/-- Auxiliary: one loop iteration preserves the invariant. -/
theorem grid_inv_step (count : ℤ) (d : XY) (seen : List (ℕ × ℕ))
    (st : GridState) (p : ℕ × ℕ) (h : grid_inv count d seen st) :
    grid_inv count d (seen ++ [p]) (grid_step count d st p) := by
  have hWasteEq : d.x * d.y -
      (count : ℚ) * grid_cell_size d p.1 p.2 * grid_cell_size d p.1 p.2 =
      grid_waste count d p.1 p.2 := rfl
  have hmemp : p ∈ seen ++ [p] :=
    List.mem_append.mpr (Or.inr (List.mem_singleton.mpr rfl))
  rcases st with _ | ⟨bs, bp, mw⟩
  · simp only [grid_step]
    split_ifs with hv hw
    · intro q hq hvq
      rcases List.mem_append.mp hq with hq | hq
      · exact h q hq hvq
      · rw [List.mem_singleton] at hq
        subst hq
        rw [← hWasteEq]
        exact hw
    · refine ⟨hmemp, hv, rfl, hWasteEq, ?_, ?_⟩
      · rw [hWasteEq]
        rw [hWasteEq] at hw
        exact not_lt.mp hw
      · intro q hq hvq hwq
        rcases List.mem_append.mp hq with hq | hq
        · exact absurd hwq (not_le.mpr (h q hq hvq))
        · rw [List.mem_singleton] at hq
          subst hq
          rw [hWasteEq]
    · intro q hq hvq
      rcases List.mem_append.mp hq with hq | hq
      · exact h q hq hvq
      · rw [List.mem_singleton] at hq
        subst hq
        exact absurd hvq hv
  · obtain ⟨hmem, hvb, hbs, hmw, hmw0, hmin⟩ := h
    simp only [grid_step]
    split_ifs with hv hw hlt
    · refine ⟨List.mem_append.mpr (Or.inl hmem), hvb, hbs, hmw, hmw0, ?_⟩
      intro q hq hvq hwq
      rcases List.mem_append.mp hq with hq | hq
      · exact hmin q hq hvq hwq
      · rw [List.mem_singleton] at hq
        subst hq
        rw [hWasteEq] at hw
        exact absurd hwq (not_le.mpr hw)
    · refine ⟨hmemp, hv, rfl, hWasteEq, ?_, ?_⟩
      · rw [hWasteEq]
        rw [hWasteEq] at hw
        exact not_lt.mp hw
      · intro q hq hvq hwq
        rcases List.mem_append.mp hq with hq | hq
        · rw [hWasteEq]
          rw [hWasteEq] at hlt
          exact le_trans hlt.le (hmin q hq hvq hwq)
        · rw [List.mem_singleton] at hq
          subst hq
          rw [hWasteEq]
    · refine ⟨List.mem_append.mpr (Or.inl hmem), hvb, hbs, hmw, hmw0, ?_⟩
      intro q hq hvq hwq
      rcases List.mem_append.mp hq with hq | hq
      · exact hmin q hq hvq hwq
      · rw [List.mem_singleton] at hq
        subst hq
        rw [hWasteEq] at hlt
        exact le_of_not_lt hlt
    · refine ⟨List.mem_append.mpr (Or.inl hmem), hvb, hbs, hmw, hmw0, ?_⟩
      intro q hq hvq hwq
      rcases List.mem_append.mp hq with hq | hq
      · exact hmin q hq hvq hwq
      · rw [List.mem_singleton] at hq
        subst hq
        exact absurd hvq hv

/-- Auxiliary: the loop fold preserves the invariant across any candidate
list. -/
theorem grid_inv_foldl (count : ℤ) (d : XY) (ps : List (ℕ × ℕ)) :
    ∀ (seen : List (ℕ × ℕ)) (st : GridState), grid_inv count d seen st →
      grid_inv count d (seen ++ ps) (ps.foldl (grid_step count d) st) := by
  induction ps with
  | nil =>
    intro seen st h
    simpa using h
  | cons p ps ih =>
    intro seen st h
    rw [List.foldl_cons]
    have h3 := ih (seen ++ [p]) _ (grid_inv_step count d seen st p h)
    rw [List.append_assoc] at h3
    simpa using h3

/-- Auxiliary: membership in the candidate list. -/
theorem mem_grid_pairs (count : ℤ) (q : ℕ × ℕ) :
    q ∈ grid_pairs count ↔
      1 ≤ q.1 ∧ q.1 ≤ count.toNat ∧ 1 ≤ q.2 ∧ q.2 ≤ count.toNat := by
  unfold grid_pairs
  simp only [List.mem_flatMap, List.mem_map, List.mem_range]
  constructor
  · rintro ⟨a, ha, b, hb, rfl⟩
    exact ⟨by omega, by omega, by omega, by omega⟩
  · rintro ⟨h1, h2, h3, h4⟩
    refine ⟨q.1 - 1, by omega, q.2 - 1, by omega, ?_⟩
    cases q
    simp only [Prod.mk.injEq]
    omega

/-- Auxiliary: for a positive canvas, every valid candidate pair has
nonnegative waste. -/
theorem grid_waste_nonneg (count : ℤ) (d : XY) (cx cy : ℕ)
    (hx : 0 < d.x) (hy : 0 < d.y) (hcx : 1 ≤ cx) (hcy : 1 ≤ cy)
    (hv : count ≤ ((cx * cy : ℕ) : ℤ)) : 0 ≤ grid_waste count d cx cy := by
  unfold grid_waste grid_cell_size
  have hcx' : (0 : ℚ) < (cx : ℚ) := by exact_mod_cast hcx
  have hcy' : (0 : ℚ) < (cy : ℚ) := by exact_mod_cast hcy
  set s := min (d.x / (cx : ℚ)) (d.y / (cy : ℚ)) with hs
  have hsx : s ≤ d.x / cx := min_le_left _ _
  have hsy : s ≤ d.y / cy := min_le_right _ _
  have hspos : 0 < s := lt_min (div_pos hx hcx') (div_pos hy hcy')
  have hss : s * s ≤ (d.x / cx) * (d.y / cy) :=
    mul_le_mul hsx hsy hspos.le (by positivity)
  have h3 : (count : ℚ) ≤ (cx : ℚ) * cy := by
    have : ((count : ℚ)) ≤ (((cx * cy : ℕ) : ℤ) : ℚ) := by exact_mod_cast hv
    push_cast at this
    linarith
  have h4 : (count : ℚ) * (s * s) ≤ ((cx : ℚ) * cy) * ((d.x / cx) * (d.y / cy)) :=
    mul_le_mul h3 hss (by positivity) (by positivity)
  have key : ((cx : ℚ) * cy) * ((d.x / cx) * (d.y / cy)) = d.x * d.y := by
    field_simp
  nlinarith [h4, key]

/-- Auxiliary: for `count ≥ 1` and a positive canvas the fold ends in a
populated state satisfying the invariant over the whole candidate list. -/
theorem grid_foldl_final (count : ℤ) (d : XY) (hc : 1 ≤ count)
    (hx : 0 < d.x) (hy : 0 < d.y) :
    ∃ bs bp mw,
      (grid_pairs count).foldl (grid_step count d) none = some (bs, bp, mw) ∧
      grid_inv count d (grid_pairs count) (some (bs, bp, mw)) := by
  have hbase : grid_inv count d [] (none : GridState) := by
    simp only [grid_inv]
    intro q hq
    exact absurd hq (List.not_mem_nil q)
  have hinv := grid_inv_foldl count d (grid_pairs count) [] none hbase
  rw [List.nil_append] at hinv
  rcases hfin : (grid_pairs count).foldl (grid_step count d) none with _ | ⟨bs, bp, mw⟩
  · exfalso
    rw [hfin] at hinv
    simp only [grid_inv] at hinv
    have hq0 : ((1 : ℕ), count.toNat) ∈ grid_pairs count := by
      rw [mem_grid_pairs]
      refine ⟨le_rfl, ?_, ?_, le_rfl⟩ <;> omega
    have hv0 : valid_pair count ((1 : ℕ), count.toNat) := by
      unfold valid_pair
      simp only
      push_cast
      omega
    have hlt := hinv _ hq0 hv0
    have hge := grid_waste_nonneg count d 1 count.toNat hx hy le_rfl (by omega)
      (by push_cast; omega)
    exact absurd hge (not_le.mpr hlt)
  · rw [hfin] at hinv
    exact ⟨bs, bp, mw, rfl, hinv⟩

/-- C2: for `count ≥ 1` and a positive canvas, `compute_grid` returns a
pair `(count_x, count_y)` within the search bounds with
`count_x * count_y ≥ count` together with the uniform cell size
`min(W/count_x, H/count_y)`, and the pair minimises the wasted area
`W*H - count*size²` over all pairs `1 ≤ count_x, count_y ≤ count` with
`count_x * count_y ≥ count`; in particular `count = 1` yields (1, 1) for
every canvas, and `count = 4` on the square canvas 2 by 2 yields (2, 2). -/
theorem c2_compute_grid_minimizes (count : ℤ) (d : XY) (hc : 1 ≤ count)
    (hx : 0 < d.x) (hy : 0 < d.y) :
    (∃ best_size cx cy,
      compute_grid count d = (some best_size, some (cx, cy)) ∧
      1 ≤ cx ∧ (cx : ℤ) ≤ count ∧ 1 ≤ cy ∧ (cy : ℤ) ≤ count ∧
      count ≤ ((cx * cy : ℕ) : ℤ) ∧
      best_size = grid_cell_size d cx cy ∧
      (∀ cx2 cy2 : ℕ, 1 ≤ cx2 → (cx2 : ℤ) ≤ count → 1 ≤ cy2 →
        (cy2 : ℤ) ≤ count → count ≤ ((cx2 * cy2 : ℕ) : ℤ) →
        grid_waste count d cx cy ≤ grid_waste count d cx2 cy2)) ∧
    (count = 1 → (compute_grid count d).2 = some (1, 1)) ∧
    compute_grid 4 ⟨2, 2⟩ = (some 1, some (2, 2)) := by
  obtain ⟨bs, bp, mw, hfin, hinv⟩ := grid_foldl_final count d hc hx hy
  obtain ⟨hmem, hvb, hbs, hmw, hmw0, hmin⟩ := hinv
  rw [mem_grid_pairs] at hmem
  obtain ⟨h1, h2, h3, h4⟩ := hmem
  refine ⟨⟨bs, bp.1, bp.2, ?_, h1, by omega, h3, by omega, hvb, hbs, ?_⟩, ?_, ?_⟩
  · unfold compute_grid
    rw [hfin]
  · intro cx2 cy2 hcx1 hcxc hcy1 hcyc hvq
    have hq : ((cx2, cy2) : ℕ × ℕ) ∈ grid_pairs count := by
      rw [mem_grid_pairs]
      refine ⟨hcx1, by omega, hcy1, by omega⟩
    have hw := grid_waste_nonneg count d cx2 cy2 hx hy hcx1 hcy1 hvq
    have hle := hmin (cx2, cy2) hq hvq hw
    rw [hmw] at hle
    exact hle
  · intro h1c
    subst h1c
    have hbp : bp = (1, 1) := by
      rcases bp with ⟨a, b⟩
      simp only [Prod.mk.injEq]
      constructor <;> omega
    unfold compute_grid
    rw [hfin, hbp]
  · have hpairs : grid_pairs 4 =
        [(1, 1), (1, 2), (1, 3), (1, 4), (2, 1), (2, 2), (2, 3), (2, 4),
         (3, 1), (3, 2), (3, 3), (3, 4), (4, 1), (4, 2), (4, 3), (4, 4)] := by
      decide
    simp only [compute_grid, hpairs]
    norm_num [grid_step, grid_cell_size, min_def]

/-- C2 witness: the theorem applied at count 4 on the square canvas. -/
theorem c2_compute_grid_minimizes_witness :
    compute_grid 4 ⟨2, 2⟩ = (some 1, some (2, 2)) :=
  (c2_compute_grid_minimizes 4 ⟨2, 2⟩ (by norm_num) (by norm_num)
    (by norm_num)).2.2

/-- C5: with a positive canvas, `compute_grid` returns no solution exactly
when `count ≤ 0` (the loop ranges are then empty); for `count ≥ 1` a
solution always exists, because every candidate pair in range with
`count_x * count_y ≥ count` in fact has nonnegative waste, so the
negative-waste rejection never removes all candidates. -/
theorem c5_compute_grid_none_iff (count : ℤ) (d : XY)
    (hx : 0 < d.x) (hy : 0 < d.y) :
    ((compute_grid count d).1 = none ↔ count ≤ 0) ∧
    ((compute_grid count d).2 = none ↔ count ≤ 0) ∧
    (∀ cx cy : ℕ, 1 ≤ cx → 1 ≤ cy → count ≤ ((cx * cy : ℕ) : ℤ) →
      0 ≤ grid_waste count d cx cy) := by
  have hml : count ≤ 0 → compute_grid count d = (none, none) := by
    intro hcount
    have hp : grid_pairs count = [] := by
      unfold grid_pairs
      have h0 : count.toNat = 0 := by omega
      rw [h0]
      rfl
    unfold compute_grid
    rw [hp]
    rfl
  have hms : 1 ≤ count →
      ∃ bs bp, compute_grid count d = (some bs, some bp) := by
    intro hcount
    obtain ⟨bs, bp, mw, hfin, _⟩ := grid_foldl_final count d hcount hx hy
    refine ⟨bs, bp, ?_⟩
    unfold compute_grid
    rw [hfin]
  refine ⟨⟨?_, ?_⟩, ⟨?_, ?_⟩, ?_⟩
  · intro hnone
    by_contra hpos
    obtain ⟨bs, bp, heq⟩ := hms (by omega)
    rw [heq] at hnone
    exact Option.noConfusion hnone
  · intro hcount
    rw [hml hcount]
  · intro hnone
    by_contra hpos
    obtain ⟨bs, bp, heq⟩ := hms (by omega)
    rw [heq] at hnone
    exact Option.noConfusion hnone
  · intro hcount
    rw [hml hcount]
  · intro cx cy hc1 hc2 hv
    exact grid_waste_nonneg count d cx cy hx hy hc1 hc2 hv

/-- C5 witness: the characterisation applied at counts 3 and 0 on a
concrete canvas. -/
theorem c5_compute_grid_none_iff_witness :
    ((compute_grid 3 ⟨2, 2⟩).2 = none → False) ∧
    (compute_grid 0 ⟨2, 2⟩).2 = none :=
  ⟨fun h => absurd
      ((c5_compute_grid_none_iff 3 ⟨2, 2⟩ (by norm_num) (by norm_num)).2.1.mp h)
      (by norm_num),
    (c5_compute_grid_none_iff 0 ⟨2, 2⟩ (by norm_num) (by norm_num)).2.1.mpr
      le_rfl⟩

/-- C8: with an empty track list - the actual "no tracks" poster state,
since `poster.tracks` is a list initialised to `[]` and never `None` -
the clock drawer's guard `if self.poster.tracks is None` does not fire,
so `ClockDrawer.draw` never raises the nothing-to-draw error for an empty
list (with no tracks the year count is 0 and it instead raises the
unrelated grid error), while `HeatmapDrawer.draw`, which tests
`len(tracks) == 0`, does raise it; the clock guard fires only on `None`,
which no reachable poster state produces.  The two error kinds are
distinct. -/
theorem c8_empty_tracks_draw_guard :
    (∀ (lrbd : Option QuantityRange) (years_count : ℤ) (size : XY),
      ClockDrawer.draw_error (some ([] : List Track)) lrbd years_count size ≠
        some PosterError.noTracksToDraw) ∧
    HeatmapDrawer.draw_error [] = some PosterError.noTracksToDraw ∧
    (∀ (size : XY) (r : QuantityRange),
      ClockDrawer.draw_error (some ([] : List Track)) (some r) 0 size =
        some PosterError.unableToComputeGrid) ∧
    (∀ (lrbd : Option QuantityRange) (years_count : ℤ) (size : XY),
      ClockDrawer.draw_error none lrbd years_count size =
        some PosterError.noTracksToDraw) ∧
    PosterError.noTracksToDraw ≠ PosterError.unableToComputeGrid := by
  refine ⟨?_, rfl, ?_, ?_, by simp⟩
  · intro lrbd years_count size
    rcases lrbd with _ | r
    · simp [ClockDrawer.draw_error]
    · rcases h : (compute_grid years_count size).2 with _ | c <;>
        simp [ClockDrawer.draw_error, h]
  · intro size r
    have hp : grid_pairs 0 = [] := rfl
    have hg : compute_grid 0 size = (none, none) := by
      unfold compute_grid
      rw [hp]
      rfl
    simp [ClockDrawer.draw_error, hg]
  · intro lrbd years_count size
    rfl

/-- C8 witness: the guard evaluation at the concrete empty-poster state:
the clock drawer surfaces the grid error, not the nothing-to-draw error. -/
theorem c8_empty_tracks_draw_guard_witness :
    ClockDrawer.draw_error (some []) (some ⟨none, none⟩) 0 ⟨100, 100⟩ =
      some PosterError.unableToComputeGrid :=
  c8_empty_tracks_draw_guard.2.2.1 ⟨100, 100⟩ ⟨none, none⟩

end GpxTrackPoster
